import Mathlib

/-!
# Ophanim Niner Bridge: the state function and the frame loop

A shallow embedding of `src/example.js`.

* `calculate_quantum_state` is the Python function installed in the bridge
  (lines 78-99).  It is written over an arbitrary field with the sine function
  (`np.sin`) taken as a parameter, so that the definition is executable; the
  theorems about it instantiate the field with the reals and the parameter
  with `Real.sin`.  The Python runtime computes in binary64; `Binary64.frequency`
  is line 81 with each operation rounded, for the one place where the rounding
  changes what can be said.
* The frame loop (`animate`, `updateEntities`, lines 107-160) is asynchronous
  JavaScript.  It is embedded as a transition system on a `World`: one
  transition per task that the event loop can run, namely a refresh callback
  (`Event.tick`), the resumption of a suspended `updateEntities` call because
  the promise it awaits was fulfilled (`Event.resolve`), and its abandonment
  because that promise was rejected (`Event.reject`).
-/

namespace Ophanim

/-! ## The state function (lines 78-99) -/

/-- The dictionary returned by `calculate_quantum_state` (lines 94-99). -/
structure VisualState (α : Type) where
  x_rotation : α
  y_rotation : α
  z_rotation : α
  energy : α

/-- Line 81: `frequency = 0.5 + coherence * 2`. -/
def frequency {α : Type} [Field α] (coherence : α) : α :=
  0.5 + coherence * 2

/-- Line 84: `amplitude = uncertainty * 0.3`. -/
def amplitude {α : Type} [Field α] (uncertainty : α) : α :=
  uncertainty * 0.3

/-- Lines 78-99, with `np.sin` as the parameter `sin`. -/
def calculate_quantum_state {α : Type} [Field α] (sin : α → α)
    (time coherence uncertainty : α) : VisualState α :=
  { x_rotation := amplitude uncertainty * sin (frequency coherence * time * 0.7)
    y_rotation := amplitude uncertainty * sin (frequency coherence * time * 1.3)
    z_rotation := amplitude uncertainty * sin (frequency coherence * time)
    energy := 0.5 + 0.5 * sin (time * coherence) }

/-! ## Entities and rings (lines 29-64) -/

/-- The `properties` object of an entity (lines 62-64). -/
structure Properties (α : Type) where
  coherence : α
  uncertainty : α

/-- Line 62. -/
def quantumEntity {α : Type} [Field α] : Properties α := ⟨0.9, 0.2⟩

/-- Line 63. -/
def moduleEntity {α : Type} [Field α] : Properties α := ⟨0.7, 0.3⟩

/-- Line 64. -/
def dataEntity {α : Type} [Field α] : Properties α := ⟨0.5, 0.5⟩

/-- The three entities, named after the ring each one is mapped to. -/
inductive EntityId where
  | outerRing
  | middleRing
  | innerRing
  deriving DecidableEq, Repr

/-- The `rotation` of a mesh. -/
structure Rotation (α : Type) where
  x : α
  y : α
  z : α

/-- The part of a mesh's `material` that the loop writes. -/
structure Material (α : Type) where
  emissiveIntensity : α

/-- The fields of a ring mesh that the loop reads or writes. -/
structure Mesh (α : Type) where
  rotation : Rotation α
  material : Material α

/-- Lines 30-40: a new mesh has zero rotation and `emissiveIntensity: 0.5`. -/
def createRing {α : Type} [Field α] : Mesh α :=
  { rotation := ⟨0, 0, 0⟩, material := ⟨0.5⟩ }

/-! ## The frame loop (lines 106-175) -/

/-- One call of `pyodideBridge.runPythonFunction('calculate_quantum_state', [..])`.
`call` is instrumentation: the number of the `updateEntities` call that made it. -/
structure Request (α : Type) where
  call : Nat
  entity : EntityId
  time : α
  coherence : α
  uncertainty : α

/-- The `await` at which a call of `updateEntities` is suspended, with the
local constants it has bound so far. -/
inductive Await (α : Type) where
  /-- Suspended at line 112. -/
  | outer : Await α
  /-- Suspended at line 117. -/
  | middle (outerState : VisualState α) : Await α
  /-- Suspended at line 122. -/
  | inner (outerState middleState : VisualState α) : Await α

/-- A suspended call of `updateEntities`: the request it awaits and where. -/
structure Call (α : Type) where
  request : Request α
  point : Await α

/-- The mutable state the loop touches. `calls` are the suspended
`updateEntities` calls; `issued`, `nextCall`, `renders`, `rejections` and
`errors` are instrumentation (request log, call counter, number of
`renderer.render` calls, unhandled rejections, `console.error` calls);
`frames` counts the callbacks registered with `requestAnimationFrame` and not
yet run; `initialized` is what `pyodideBridge.isInitialized()` returns. -/
structure World (α : Type) where
  time : α
  outerRing : Mesh α
  middleRing : Mesh α
  innerRing : Mesh α
  initialized : Bool
  calls : List (Call α)
  issued : List (Request α)
  nextCall : Nat
  frames : Nat
  renders : Nat
  rejections : Nat
  errors : Nat

/-- The state after the module's top level has run up to line 107: three new
rings, `time = 0`, nothing scheduled. -/
def World.initial {α : Type} [Field α] (ready : Bool) : World α :=
  { time := 0
    outerRing := createRing
    middleRing := createRing
    innerRing := createRing
    initialized := ready
    calls := []
    issued := []
    nextCall := 0
    frames := 0
    renders := 0
    rejections := 0
    errors := 0 }

/-- The world with new rings in which the bridge is initialized, the variable
`time` has the given value and the given calls are suspended. -/
def World.suspended {α : Type} [Field α] (time : α) (calls : List (Call α)) : World α :=
  { (World.initial true : World α) with time := time, calls := calls }

/-- Lines 108-115: the synchronous part of `updateEntities`, up to its first
`await`: `time += 0.01`, then the request for the outer entity. -/
def updateEntities {α : Type} [Field α] (w : World α) : World α :=
  let time := w.time + 0.01
  let r : Request α :=
    ⟨w.nextCall, .outerRing, time, quantumEntity.coherence, quantumEntity.uncertainty⟩
  { w with
    time := time
    calls := w.calls ++ [⟨r, .outer⟩]
    issued := w.issued ++ [r]
    nextCall := w.nextCall + 1 }

/-- Writes of lines 128-131 (and 133-136, 138-141) to one ring. -/
def writeState {α : Type} (s : VisualState α) : Mesh α :=
  { rotation := ⟨s.x_rotation, s.y_rotation, s.z_rotation⟩
    material := ⟨s.energy⟩ }

/-- The promise awaited by the `i`-th suspended call is fulfilled with the
value of the Python function at the request's arguments, and the call runs on
to its next `await` (lines 117, 122) or to its end (lines 128-141).  The
`time` passed to the next request is the module variable read at that moment. -/
def resume {α : Type} [Field α] (sin : α → α) (i : Nat) (w : World α) : World α :=
  match w.calls[i]? with
  | none => w
  | some c =>
    let v := calculate_quantum_state sin c.request.time c.request.coherence
      c.request.uncertainty
    match c.point with
    | .outer =>
      let r : Request α :=
        ⟨c.request.call, .middleRing, w.time, moduleEntity.coherence,
          moduleEntity.uncertainty⟩
      { w with calls := w.calls.set i ⟨r, .middle v⟩, issued := w.issued ++ [r] }
    | .middle outerState =>
      let r : Request α :=
        ⟨c.request.call, .innerRing, w.time, dataEntity.coherence,
          dataEntity.uncertainty⟩
      { w with calls := w.calls.set i ⟨r, .inner outerState v⟩, issued := w.issued ++ [r] }
    | .inner outerState middleState =>
      { w with
        calls := w.calls.eraseIdx i
        outerRing := writeState outerState
        middleRing := writeState middleState
        innerRing := writeState v }

/-- The promise awaited by the `i`-th suspended call is rejected: the `await`
throws inside `updateEntities`, which has no handler, so the call ends there
and its own promise, which nobody holds, is rejected. -/
def abandon {α : Type} (i : Nat) (w : World α) : World α :=
  match w.calls[i]? with
  | none => w
  | some _ => { w with calls := w.calls.eraseIdx i, rejections := w.rejections + 1 }

/-- Lines 145-160. -/
def animate {α : Type} [Field α] (w : World α) : World α :=
  let w1 := { w with frames := w.frames + 1 }
  let w2 := if w1.initialized then updateEntities w1 else w1
  { w2 with
    outerRing := { w2.outerRing with
      rotation := { w2.outerRing.rotation with z := w2.outerRing.rotation.z + 0.001 } }
    middleRing := { w2.middleRing with
      rotation := { w2.middleRing.rotation with x := w2.middleRing.rotation.x + 0.001 } }
    innerRing := { w2.innerRing with
      rotation := { w2.innerRing.rotation with y := w2.innerRing.rotation.y + 0.001 } }
    renders := w2.renders + 1 }

/-- The two outcomes of `initializePython()` (lines 70-104). -/
inductive Bootstrap where
  | fulfilled
  | rejected
  deriving DecidableEq, Repr

/-- Lines 170-175: `animate` is called from the `then` continuation only; the
`catch` continuation logs the error.  `isInitialized()` is taken to return
true once the bootstrap is fulfilled and false after it is rejected. -/
def start {α : Type} [Field α] (b : Bootstrap) : World α :=
  match b with
  | .fulfilled => animate (World.initial true)
  | .rejected => { (World.initial false : World α) with errors := 1 }

/-- The tasks the event loop can run once the top level has finished. -/
inductive Event where
  /-- The display refresh runs a callback registered by `requestAnimationFrame`. -/
  | tick
  /-- The promise awaited by the `i`-th suspended call is fulfilled. -/
  | resolve (i : Nat)
  /-- The promise awaited by the `i`-th suspended call is rejected. -/
  | reject (i : Nat)
  deriving DecidableEq, Repr

/-- One task.  A refresh has nothing to run when no callback is registered. -/
def step {α : Type} [Field α] (sin : α → α) (w : World α) : Event → World α
  | .tick => if w.frames = 0 then w else animate { w with frames := w.frames - 1 }
  | .resolve i => resume sin i w
  | .reject i => abandon i w

/-- A sequence of tasks, in the order the event loop runs them. -/
def run {α : Type} [Field α] (sin : α → α) (evs : List Event) (w : World α) : World α :=
  evs.foldl (step sin) w

/-- The requests of an entity that have been issued and not yet settled. -/
def outstanding {α : Type} (e : EntityId) (w : World α) : List (Request α) :=
  (w.calls.map Call.request).filter (fun r => r.entity = e)

/-- How many refresh callbacks a sequence of tasks contains. -/
def ticks (evs : List Event) : Nat :=
  evs.count Event.tick

/-- The suspended calls carry pairwise distinct call numbers, all of them
already handed out. -/
def Numbered {α : Type} (w : World α) : Prop :=
  (w.calls.map (fun c => c.request.call)).Nodup ∧
    ∀ c ∈ w.calls, c.request.call < w.nextCall

/-- The three shapes a suspended call numbered `k` can have when its requests
were all issued at time `t` and answered by the state function. -/
def OnSchedule {α : Type} [Field α] (sin : α → α) (k : Nat) (t : α) (c : Call α) : Prop :=
  c = ⟨⟨k, .outerRing, t, quantumEntity.coherence, quantumEntity.uncertainty⟩, .outer⟩ ∨
  c = ⟨⟨k, .middleRing, t, moduleEntity.coherence, moduleEntity.uncertainty⟩,
      .middle (calculate_quantum_state sin t quantumEntity.coherence
        quantumEntity.uncertainty)⟩ ∨
  c = ⟨⟨k, .innerRing, t, dataEntity.coherence, dataEntity.uncertainty⟩,
      .inner
        (calculate_quantum_state sin t quantumEntity.coherence quantumEntity.uncertainty)
        (calculate_quantum_state sin t moduleEntity.coherence moduleEntity.uncertainty)⟩

/-! ## Line 81 in binary64 arithmetic

Python's `float` is IEEE 754 binary64 with rounding to nearest, ties to even.
Finite binary64 numbers are rationals; an operation returns the rounding of
the exact result. -/

namespace Binary64

/-- The integer nearest to `x`, the even one when two are equally near. -/
def roundHalfEven (x : ℚ) : ℤ :=
  if x - ⌊x⌋ < 1 / 2 then ⌊x⌋
  else if 1 / 2 < x - ⌊x⌋ then ⌊x⌋ + 1
  else if ⌊x⌋ % 2 = 0 then ⌊x⌋ else ⌊x⌋ + 1

/-- The spacing of the binary64 numbers in the binade of `q`: 53 significant
bits, and the spacing of the smallest normal binade below it. -/
def ulp (q : ℚ) : ℚ :=
  2 ^ (max (Int.log 2 |q|) (-1022) - 52)

/-- The binary64 number nearest to `q`, ties to even.  Results beyond the
largest finite binary64 number, which the format turns into infinities, are
outside this function's use here. -/
def toNearestEven (q : ℚ) : ℚ :=
  roundHalfEven (q / ulp q) * ulp q

/-- Line 81, `frequency = 0.5 + coherence * 2`, on binary64 numbers: the
product is rounded, then the sum.  The constants 0.5 and 2 are binary64
numbers. -/
def frequency (coherence : ℚ) : ℚ :=
  toNearestEven (0.5 + toNearestEven (coherence * 2))

end Binary64

/-! ## Theorems about the state function -/

section StateFunction

theorem energy_eq (sin : ℝ → ℝ) (time coherence uncertainty : ℝ) :
    (calculate_quantum_state sin time coherence uncertainty).energy
      = 0.5 + 0.5 * sin (time * coherence) := rfl

theorem abs_amplitude_mul_sin_le (uncertainty θ : ℝ) (hu : 0 ≤ uncertainty) :
    |amplitude uncertainty * Real.sin θ| ≤ 0.3 * uncertainty := by
  have hs : |Real.sin θ| ≤ 1 := Real.abs_sin_le_one θ
  have ha : |amplitude uncertainty| = 0.3 * uncertainty := by
    unfold amplitude
    rw [abs_of_nonneg (by positivity)]
    ring
  rw [abs_mul, ha]
  have h0 : 0 ≤ 0.3 * uncertainty := by positivity
  calc 0.3 * uncertainty * |Real.sin θ| ≤ 0.3 * uncertainty * 1 :=
        mul_le_mul_of_nonneg_left hs h0
    _ = 0.3 * uncertainty := by ring

theorem frequency_strictMono : StrictMono (frequency : ℝ → ℝ) := by
  intro a b hab
  unfold frequency
  linarith

/-- C5. For all real `time`, `coherence` and `uncertainty`, the `energy`
returned by `calculate_quantum_state` is `0.5 + 0.5 * sin (time * coherence)`
and lies in `[0, 1]`. -/
theorem energy_range (time coherence uncertainty : ℝ) :
    (calculate_quantum_state Real.sin time coherence uncertainty).energy
        = 0.5 + 0.5 * Real.sin (time * coherence) ∧
      0 ≤ (calculate_quantum_state Real.sin time coherence uncertainty).energy ∧
      (calculate_quantum_state Real.sin time coherence uncertainty).energy ≤ 1 := by
  have h1 := Real.neg_one_le_sin (time * coherence)
  have h2 := Real.sin_le_one (time * coherence)
  refine ⟨rfl, ?_, ?_⟩
  · rw [energy_eq]; linarith
  · rw [energy_eq]; linarith

/-- C6, over real arithmetic. For real `time`, `coherence` and
`uncertainty ≥ 0`, each rotation returned by `calculate_quantum_state` is
`uncertainty` times the rotation returned at `uncertainty = 1`, has absolute
value at most `0.3 * uncertainty` (at most `0.3` when `uncertainty ≤ 1`, and
is `0` at `uncertainty = 0`); the frequency used is `0.5 + 2 * coherence`,
strictly increasing in `coherence`. -/
theorem rotation_scales_with_uncertainty (time coherence uncertainty : ℝ)
    (hu : 0 ≤ uncertainty) :
    ((calculate_quantum_state Real.sin time coherence uncertainty).x_rotation
        = uncertainty * (calculate_quantum_state Real.sin time coherence 1).x_rotation ∧
      (calculate_quantum_state Real.sin time coherence uncertainty).y_rotation
        = uncertainty * (calculate_quantum_state Real.sin time coherence 1).y_rotation ∧
      (calculate_quantum_state Real.sin time coherence uncertainty).z_rotation
        = uncertainty * (calculate_quantum_state Real.sin time coherence 1).z_rotation) ∧
    (|(calculate_quantum_state Real.sin time coherence uncertainty).x_rotation|
        ≤ 0.3 * uncertainty ∧
      |(calculate_quantum_state Real.sin time coherence uncertainty).y_rotation|
        ≤ 0.3 * uncertainty ∧
      |(calculate_quantum_state Real.sin time coherence uncertainty).z_rotation|
        ≤ 0.3 * uncertainty) ∧
    (uncertainty ≤ 1 →
      |(calculate_quantum_state Real.sin time coherence uncertainty).x_rotation| ≤ 0.3 ∧
      |(calculate_quantum_state Real.sin time coherence uncertainty).y_rotation| ≤ 0.3 ∧
      |(calculate_quantum_state Real.sin time coherence uncertainty).z_rotation| ≤ 0.3) ∧
    ((calculate_quantum_state Real.sin time coherence 0).x_rotation = 0 ∧
      (calculate_quantum_state Real.sin time coherence 0).y_rotation = 0 ∧
      (calculate_quantum_state Real.sin time coherence 0).z_rotation = 0) ∧
    ((calculate_quantum_state Real.sin time coherence uncertainty).x_rotation
        = uncertainty * 0.3 * Real.sin ((0.5 + 2 * coherence) * time * 0.7) ∧
      (calculate_quantum_state Real.sin time coherence uncertainty).y_rotation
        = uncertainty * 0.3 * Real.sin ((0.5 + 2 * coherence) * time * 1.3) ∧
      (calculate_quantum_state Real.sin time coherence uncertainty).z_rotation
        = uncertainty * 0.3 * Real.sin ((0.5 + 2 * coherence) * time)) ∧
    (frequency coherence = 0.5 + 2 * coherence ∧ StrictMono (frequency : ℝ → ℝ)) := by
  have hx := abs_amplitude_mul_sin_le uncertainty (frequency coherence * time * 0.7) hu
  have hy := abs_amplitude_mul_sin_le uncertainty (frequency coherence * time * 1.3) hu
  have hz := abs_amplitude_mul_sin_le uncertainty (frequency coherence * time) hu
  have hf : frequency coherence = 0.5 + 2 * coherence := by unfold frequency; ring
  refine ⟨⟨?_, ?_, ?_⟩, ⟨hx, hy, hz⟩, ?_, ⟨?_, ?_, ?_⟩, ⟨?_, ?_, ?_⟩, hf, frequency_strictMono⟩
  · simp only [calculate_quantum_state, amplitude]; ring
  · simp only [calculate_quantum_state, amplitude]; ring
  · simp only [calculate_quantum_state, amplitude]; ring
  · intro h1
    have hb : (0.3 : ℝ) * uncertainty ≤ 0.3 := by nlinarith
    exact ⟨hx.trans hb, hy.trans hb, hz.trans hb⟩
  · simp [calculate_quantum_state, amplitude]
  · simp [calculate_quantum_state, amplitude]
  · simp [calculate_quantum_state, amplitude]
  · simp only [calculate_quantum_state, amplitude, ← hf]
  · simp only [calculate_quantum_state, amplitude, ← hf]
  · simp only [calculate_quantum_state, amplitude, ← hf]

theorem rotation_scales_with_uncertainty_witness :
    (0 : ℝ) ≤ 0.2 ∧ (0.2 : ℝ) ≤ 1 ∧
    |(calculate_quantum_state Real.sin 1 0.9 0.2).z_rotation| ≤ 0.3 * 0.2 ∧
    |(calculate_quantum_state Real.sin 1 0.9 0.2).z_rotation| ≤ 0.3 :=
  ⟨by norm_num, by norm_num,
    (rotation_scales_with_uncertainty 1 0.9 0.2 (by norm_num)).2.1.2.2,
    ((rotation_scales_with_uncertainty 1 0.9 0.2 (by norm_num)).2.2.1 (by norm_num)).2.2⟩

theorem roundHalfEven_of_lt (x : ℚ) (z : ℤ) (h1 : (z : ℚ) ≤ x) (h2 : x < z + 1 / 2) :
    Binary64.roundHalfEven x = z := by
  have hf : ⌊x⌋ = z := Int.floor_eq_iff.mpr ⟨h1, by linarith⟩
  unfold Binary64.roundHalfEven
  rw [hf, if_pos (by linarith)]

theorem ulp_of_binade (q : ℚ) (e : ℤ) (he : -1022 ≤ e) (h1 : (2 : ℚ) ^ e ≤ |q|)
    (h2 : |q| < (2 : ℚ) ^ (e + 1)) : Binary64.ulp q = 2 ^ (e - 52) := by
  have hpos : 0 < |q| := lt_of_lt_of_le (by positivity) h1
  have hlog : Int.log 2 |q| = e := by
    have ha : e ≤ Int.log 2 |q| :=
      (Int.zpow_le_iff_le_log (by norm_num) hpos).mp (by exact_mod_cast h1)
    have hb : Int.log 2 |q| < e + 1 :=
      (Int.lt_zpow_iff_log_lt (by norm_num) hpos).mp (by exact_mod_cast h2)
    omega
  unfold Binary64.ulp
  rw [hlog, max_eq_left he]

theorem toNearestEven_of_binade (q : ℚ) (e n : ℤ) (he : -1022 ≤ e)
    (h1 : (2 : ℚ) ^ e ≤ |q|) (h2 : |q| < (2 : ℚ) ^ (e + 1))
    (hn1 : (n : ℚ) ≤ q / 2 ^ (e - 52)) (hn2 : q / 2 ^ (e - 52) < n + 1 / 2) :
    Binary64.toNearestEven q = n * 2 ^ (e - 52) := by
  unfold Binary64.toNearestEven
  rw [ulp_of_binade q e he h1 h2, roundHalfEven_of_lt _ n hn1 hn2]

theorem toNearestEven_zero : Binary64.toNearestEven 0 = 0 := by
  simp [Binary64.toNearestEven, Binary64.roundHalfEven]

theorem toNearestEven_half : Binary64.toNearestEven (0.5 : ℚ) = 0.5 := by
  rw [toNearestEven_of_binade _ (-1) (2 ^ 52) (by norm_num) (by norm_num [abs_of_pos])
    (by norm_num [abs_of_pos]) (by norm_num) (by norm_num)]
  norm_num

theorem toNearestEven_tiny : Binary64.toNearestEven ((2 : ℚ) ^ (-60 : ℤ)) = 2 ^ (-60 : ℤ) := by
  rw [toNearestEven_of_binade _ (-60) (2 ^ 52) (by norm_num) (by norm_num [abs_of_pos])
    (by norm_num [abs_of_pos]) (by norm_num) (by norm_num)]
  norm_num

theorem toNearestEven_tiny_mul_two :
    Binary64.toNearestEven ((2 : ℚ) ^ (-60 : ℤ) * 2) = 2 ^ (-59 : ℤ) := by
  rw [toNearestEven_of_binade _ (-59) (2 ^ 52) (by norm_num) (by norm_num [abs_of_pos])
    (by norm_num [abs_of_pos]) (by norm_num) (by norm_num)]
  norm_num

theorem toNearestEven_half_add_tiny :
    Binary64.toNearestEven (0.5 + (2 : ℚ) ^ (-59 : ℤ)) = 0.5 := by
  rw [toNearestEven_of_binade _ (-1) (2 ^ 52) (by norm_num) (by norm_num [abs_of_pos])
    (by norm_num [abs_of_pos]) (by norm_num) (by norm_num)]
  norm_num

/-- C6 fails as stated, for the arithmetic the code computes in: `0` and
`2 ^ (-60)` are binary64 numbers in `[0, 1]`, the second larger than the
first, and line 81 gives the frequency `0.5` for both, so the frequency is
not strictly increasing in `coherence`. -/
theorem frequency_counterexample :
    Binary64.toNearestEven 0 = 0 ∧
    Binary64.toNearestEven ((2 : ℚ) ^ (-60 : ℤ)) = 2 ^ (-60 : ℤ) ∧
    (0 : ℚ) < 2 ^ (-60 : ℤ) ∧ (2 : ℚ) ^ (-60 : ℤ) ≤ 1 ∧
    Binary64.frequency 0 = 0.5 ∧
    Binary64.frequency ((2 : ℚ) ^ (-60 : ℤ)) = 0.5 ∧
    ¬ StrictMono Binary64.frequency := by
  have h0 : Binary64.frequency 0 = 0.5 := by
    unfold Binary64.frequency
    rw [zero_mul, toNearestEven_zero, add_zero, toNearestEven_half]
  have h1 : Binary64.frequency ((2 : ℚ) ^ (-60 : ℤ)) = 0.5 := by
    unfold Binary64.frequency
    rw [toNearestEven_tiny_mul_two, toNearestEven_half_add_tiny]
  have hpos : (0 : ℚ) < 2 ^ (-60 : ℤ) := by positivity
  refine ⟨toNearestEven_zero, toNearestEven_tiny, hpos, by norm_num, h0, h1, ?_⟩
  intro hmono
  have := hmono hpos
  rw [h0, h1] at this
  exact lt_irrefl _ this

/-- C7. At `time = 0` the state function returns `energy = 0.5` and zero
rotations, for the entity with coherence 0.9 and uncertainty 0.2 and for every
other coherence and uncertainty; and whenever `time * coherence = π / 2` it
returns `energy = 1`. -/
theorem reference_energy (coherence uncertainty : ℝ) :
    ((calculate_quantum_state Real.sin 0 quantumEntity.coherence
          quantumEntity.uncertainty).energy = 0.5 ∧
      (calculate_quantum_state Real.sin 0 coherence uncertainty).energy = 0.5 ∧
      (calculate_quantum_state Real.sin 0 coherence uncertainty).x_rotation = 0 ∧
      (calculate_quantum_state Real.sin 0 coherence uncertainty).y_rotation = 0 ∧
      (calculate_quantum_state Real.sin 0 coherence uncertainty).z_rotation = 0) ∧
    ∀ time : ℝ, time * coherence = Real.pi / 2 →
      (calculate_quantum_state Real.sin time coherence uncertainty).energy = 1 := by
  refine ⟨⟨?_, ?_, ?_, ?_, ?_⟩, ?_⟩
  · simp [calculate_quantum_state]
  · simp [calculate_quantum_state]
  · simp [calculate_quantum_state]
  · simp [calculate_quantum_state]
  · simp [calculate_quantum_state]
  · intro time h
    rw [energy_eq, h, Real.sin_pi_div_two]
    norm_num

theorem reference_energy_witness :
    (5 * Real.pi / 9) * (0.9 : ℝ) = Real.pi / 2 ∧
    (calculate_quantum_state Real.sin (5 * Real.pi / 9) 0.9 0.2).energy = 1 :=
  ⟨by ring, (reference_energy 0.9 0.2).2 (5 * Real.pi / 9) (by ring)⟩

end StateFunction

/-! ## Theorems about the frame loop -/

section FrameLoop

theorem run_nil {α : Type} [Field α] (sin : α → α) (w : World α) : run sin [] w = w := rfl

theorem run_cons {α : Type} [Field α] (sin : α → α) (e : Event) (evs : List Event) (w : World α) :
    run sin (e :: evs) w = run sin evs (step sin w e) := rfl

theorem run_append {α : Type} [Field α] (sin : α → α) (evs₁ evs₂ : List Event) (w : World α) :
    run sin (evs₁ ++ evs₂) w = run sin evs₂ (run sin evs₁ w) := by
  simp [run, List.foldl_append]

theorem animate_frames {α : Type} [Field α] (w : World α) : (animate w).frames = w.frames + 1 := by
  unfold animate
  cases h : w.initialized <;> simp [h, updateEntities]

theorem animate_renders {α : Type} [Field α] (w : World α) : (animate w).renders = w.renders + 1 := by
  unfold animate
  cases h : w.initialized <;> simp [h, updateEntities]

theorem animate_initialized {α : Type} [Field α] (w : World α) : (animate w).initialized = w.initialized := by
  unfold animate
  cases h : w.initialized <;> simp [h, updateEntities]

theorem animate_outerRing {α : Type} [Field α] (w : World α) :
    (animate w).outerRing =
      { w.outerRing with
        rotation := { w.outerRing.rotation with z := w.outerRing.rotation.z + 0.001 } } := by
  unfold animate
  cases h : w.initialized <;> simp [h, updateEntities]

theorem animate_middleRing {α : Type} [Field α] (w : World α) :
    (animate w).middleRing =
      { w.middleRing with
        rotation := { w.middleRing.rotation with x := w.middleRing.rotation.x + 0.001 } } := by
  unfold animate
  cases h : w.initialized <;> simp [h, updateEntities]

theorem animate_innerRing {α : Type} [Field α] (w : World α) :
    (animate w).innerRing =
      { w.innerRing with
        rotation := { w.innerRing.rotation with y := w.innerRing.rotation.y + 0.001 } } := by
  unfold animate
  cases h : w.initialized <;> simp [h, updateEntities]

theorem animate_not_ready {α : Type} [Field α] (w : World α) (h : w.initialized = false) :
    (animate w).time = w.time ∧ (animate w).calls = w.calls ∧
      (animate w).issued = w.issued ∧ (animate w).nextCall = w.nextCall := by
  unfold animate
  simp [h]

theorem animate_ready {α : Type} [Field α] (w : World α) (h : w.initialized = true) :
    (animate w).time = w.time + 0.01 ∧
      (animate w).calls = w.calls ++
        [⟨⟨w.nextCall, .outerRing, w.time + 0.01, quantumEntity.coherence,
          quantumEntity.uncertainty⟩, .outer⟩] ∧
      (animate w).issued = w.issued ++
        [⟨w.nextCall, .outerRing, w.time + 0.01, quantumEntity.coherence,
          quantumEntity.uncertainty⟩] ∧
      (animate w).nextCall = w.nextCall + 1 := by
  unfold animate
  simp [h, updateEntities]

theorem abandon_frame {α : Type} (i : Nat) (w : World α) :
    (abandon i w).frames = w.frames ∧ (abandon i w).renders = w.renders ∧
      (abandon i w).outerRing = w.outerRing ∧ (abandon i w).middleRing = w.middleRing ∧
      (abandon i w).innerRing = w.innerRing ∧ (abandon i w).time = w.time ∧
      (abandon i w).issued = w.issued ∧ (abandon i w).initialized = w.initialized := by
  unfold abandon
  cases w.calls[i]? <;> simp

/-- C4. Every call of `animate`, whatever `isInitialized()` returns and
whatever calls are in flight, adds exactly 0.001 to `outerRing.rotation.z`, to
`middleRing.rotation.x` and to `innerRing.rotation.y`, calls `renderer.render`
once and registers the next callback; a rejection touches neither the rings
nor the registered callback, and the tick that follows it does the same. -/
theorem tick_applies_fallback_and_presents {α : Type} [Field α] (sin : α → α) (w : World α) :
    ((animate w).outerRing.rotation.z = w.outerRing.rotation.z + 0.001 ∧
      (animate w).middleRing.rotation.x = w.middleRing.rotation.x + 0.001 ∧
      (animate w).innerRing.rotation.y = w.innerRing.rotation.y + 0.001 ∧
      (animate w).renders = w.renders + 1 ∧
      (animate w).frames = w.frames + 1) ∧
    ∀ i : Nat,
      (step sin w (.reject i)).frames = w.frames ∧
      (step sin w (.reject i)).renders = w.renders ∧
      (animate (step sin w (.reject i))).outerRing.rotation.z
        = w.outerRing.rotation.z + 0.001 ∧
      (animate (step sin w (.reject i))).middleRing.rotation.x
        = w.middleRing.rotation.x + 0.001 ∧
      (animate (step sin w (.reject i))).innerRing.rotation.y
        = w.innerRing.rotation.y + 0.001 ∧
      (animate (step sin w (.reject i))).renders = w.renders + 1 ∧
      (animate (step sin w (.reject i))).frames = w.frames + 1 := by
  refine ⟨⟨?_, ?_, ?_, animate_renders w, animate_frames w⟩, ?_⟩
  · rw [animate_outerRing]
  · rw [animate_middleRing]
  · rw [animate_innerRing]
  · intro i
    obtain ⟨hf, hr, ho, hm, hi, -, -, -⟩ := abandon_frame i w
    simp only [step]
    refine ⟨hf, hr, ?_, ?_, ?_, ?_, ?_⟩
    · rw [animate_outerRing, ho]
    · rw [animate_middleRing, hm]
    · rw [animate_innerRing, hi]
    · rw [animate_renders, hr]
    · rw [animate_frames, hf]

theorem run_idle {α : Type} [Field α] (sin : α → α) (evs : List Event) (w : World α)
    (hf : w.frames = 0) (hc : w.calls = []) : run sin evs w = w := by
  induction evs with
  | nil => rfl
  | cons e evs ih =>
    have hstep : step sin w e = w := by
      cases e with
      | tick => simp [step, hf]
      | resolve i => simp [step, resume, hc]
      | reject i => simp [step, abandon, hc]
    rw [run_cons, hstep, ih]

theorem start_rejected_idle {α : Type} [Field α] :
    (start .rejected : World α).frames = 0 ∧ (start .rejected : World α).calls = [] ∧
      (start .rejected : World α).renders = 0 ∧ (start .rejected : World α).issued = [] ∧
      (start .rejected : World α).outerRing.rotation.z = 0 ∧
      (start .rejected : World α).middleRing.rotation.x = 0 ∧
      (start .rejected : World α).innerRing.rotation.y = 0 := by
  simp [start, World.initial, createRing]

theorem step_tick_not_ready {α : Type} [Field α] (sin : α → α) (w : World α)
    (hi : w.initialized = false) (hf : 0 < w.frames) :
    (step sin w .tick).initialized = false ∧ (step sin w .tick).frames = w.frames ∧
      (step sin w .tick).issued = w.issued ∧ (step sin w .tick).calls = w.calls ∧
      (step sin w .tick).time = w.time ∧
      (step sin w .tick).renders = w.renders + 1 ∧
      (step sin w .tick).outerRing.rotation.z = w.outerRing.rotation.z + 0.001 ∧
      (step sin w .tick).middleRing.rotation.x = w.middleRing.rotation.x + 0.001 ∧
      (step sin w .tick).innerRing.rotation.y = w.innerRing.rotation.y + 0.001 := by
  have hne : w.frames ≠ 0 := Nat.pos_iff_ne_zero.mp hf
  have hi2 : ({ w with frames := w.frames - 1 } : World α).initialized = false := hi
  obtain ⟨ht, hc, hs, -⟩ := animate_not_ready _ hi2
  simp only [step, if_neg hne]
  refine ⟨?_, ?_, hs, hc, ht, ?_, ?_, ?_, ?_⟩
  · rw [animate_initialized]; exact hi
  · rw [animate_frames]; show w.frames - 1 + 1 = w.frames; omega
  · rw [animate_renders]
  · rw [animate_outerRing]
  · rw [animate_middleRing]
  · rw [animate_innerRing]

theorem run_ticks_not_ready {α : Type} [Field α] (sin : α → α) (n : Nat) :
    ∀ w : World α, w.initialized = false → 0 < w.frames →
      (run sin (List.replicate n Event.tick) w).issued = w.issued ∧
      (run sin (List.replicate n Event.tick) w).calls = w.calls ∧
      (run sin (List.replicate n Event.tick) w).time = w.time ∧
      (run sin (List.replicate n Event.tick) w).renders = w.renders + n ∧
      (run sin (List.replicate n Event.tick) w).outerRing.rotation.z
        = w.outerRing.rotation.z + n * 0.001 ∧
      (run sin (List.replicate n Event.tick) w).middleRing.rotation.x
        = w.middleRing.rotation.x + n * 0.001 ∧
      (run sin (List.replicate n Event.tick) w).innerRing.rotation.y
        = w.innerRing.rotation.y + n * 0.001 := by
  induction n with
  | zero => intro w _ _; simp [run_nil]
  | succ n ih =>
    intro w hi hf
    obtain ⟨h1, h2, h3, h4, h5, h6, h7, h8, h9⟩ := step_tick_not_ready sin w hi hf
    obtain ⟨k1, k2, k3, k4, k5, k6, k7⟩ := ih (step sin w .tick) h1 (by rw [h2]; exact hf)
    rw [List.replicate_succ, run_cons]
    refine ⟨by rw [k1, h3], by rw [k2, h4], by rw [k3, h5], ?_, ?_, ?_, ?_⟩
    · rw [k4, h6]; omega
    · rw [k5, h7]; push_cast; ring
    · rw [k6, h8]; push_cast; ring
    · rw [k7, h9]; push_cast; ring

/-- C2, as the code has it. After a failed bootstrap `animate` is never
called, so no sequence of tasks changes anything: no tick runs, no request is
issued and nothing is rendered. In ticks that do run while `isInitialized()`
is false no request is issued and the fallback motion is applied, so that 100
of them add exactly 0.1 to the outer ring's z, the middle ring's x and the
inner ring's y rotation. -/
theorem degraded_mode {α : Type} [Field α] [CharZero α] (sin : α → α) :
    (∀ evs : List Event, run sin evs (start .rejected) = start .rejected) ∧
    ∀ w : World α, w.initialized = false → 0 < w.frames →
      (run sin (List.replicate 100 Event.tick) w).issued = w.issued ∧
      (run sin (List.replicate 100 Event.tick) w).calls = w.calls ∧
      (run sin (List.replicate 100 Event.tick) w).renders = w.renders + 100 ∧
      (run sin (List.replicate 100 Event.tick) w).outerRing.rotation.z
        = w.outerRing.rotation.z + 0.1 ∧
      (run sin (List.replicate 100 Event.tick) w).middleRing.rotation.x
        = w.middleRing.rotation.x + 0.1 ∧
      (run sin (List.replicate 100 Event.tick) w).innerRing.rotation.y
        = w.innerRing.rotation.y + 0.1 := by
  refine ⟨fun evs => run_idle sin evs _ start_rejected_idle.1 start_rejected_idle.2.1, ?_⟩
  intro w hi hf
  obtain ⟨k1, k2, -, k4, k5, k6, k7⟩ := run_ticks_not_ready sin 100 w hi hf
  refine ⟨k1, k2, k4, ?_, ?_, ?_⟩
  · rw [k5]; norm_num
  · rw [k6]; norm_num
  · rw [k7]; norm_num

theorem degraded_mode_witness :
    ({ (World.initial false : World ℚ) with frames := 1 }).initialized = false ∧
    0 < ({ (World.initial false : World ℚ) with frames := 1 }).frames ∧
    (run (fun _ => 0) (List.replicate 100 Event.tick)
        { (World.initial false : World ℚ) with frames := 1 }).outerRing.rotation.z
      = ({ (World.initial false : World ℚ) with frames := 1 }).outerRing.rotation.z + 0.1 :=
  ⟨rfl, by decide,
    ((degraded_mode (fun _ => 0)).2 { (World.initial false : World ℚ) with frames := 1 }
      rfl (by decide)).2.2.2.1⟩

/-- C2 fails as stated: after a failed bootstrap, 100 refreshes leave the
outer ring's z rotation (and the middle ring's x, the inner ring's y) at its
initial value 0, not at 0.1, and nothing has been rendered. -/
theorem degraded_mode_counterexample :
    (run Real.sin (List.replicate 100 Event.tick)
        (start .rejected : World ℝ)).outerRing.rotation.z = 0 ∧
    (run Real.sin (List.replicate 100 Event.tick)
        (start .rejected : World ℝ)).middleRing.rotation.x = 0 ∧
    (run Real.sin (List.replicate 100 Event.tick)
        (start .rejected : World ℝ)).innerRing.rotation.y = 0 ∧
    (run Real.sin (List.replicate 100 Event.tick)
        (start .rejected : World ℝ)).renders = 0 ∧
    ¬ ((run Real.sin (List.replicate 100 Event.tick)
        (start .rejected : World ℝ)).outerRing.rotation.z
      = (start .rejected : World ℝ).outerRing.rotation.z + 0.1) := by
  rw [run_idle Real.sin _ _ start_rejected_idle.1 start_rejected_idle.2.1]
  obtain ⟨-, -, hr, -, ho, hm, hi⟩ := @start_rejected_idle ℝ _
  refine ⟨ho, hm, hi, hr, ?_⟩
  rw [ho]
  norm_num

/-! ### Requests in flight -/

theorem map_set_same {β γ : Type} (f : β → γ) (c c' : β) :
    ∀ (l : List β) (i : Nat), l[i]? = some c → f c' = f c → (l.set i c').map f = l.map f := by
  intro l
  induction l with
  | nil => intro i h; simp at h
  | cons a l ih =>
    intro i h hf
    cases i with
    | zero =>
      simp only [List.getElem?_cons_zero, Option.some.injEq] at h
      simp [List.set, hf, h]
    | succ i =>
      simp only [List.getElem?_cons_succ] at h
      simp only [List.set, List.map_cons, ih i h hf]

theorem resume_none {α : Type} [Field α] (sin : α → α) (i : Nat) (w : World α)
    (h : w.calls[i]? = none) : resume sin i w = w := by
  simp only [resume, h]

theorem resume_outer {α : Type} [Field α] (sin : α → α) (i : Nat) (w : World α)
    (r : Request α) (h : w.calls[i]? = some ⟨r, .outer⟩) :
    resume sin i w =
      { w with
        calls := w.calls.set i
          ⟨⟨r.call, .middleRing, w.time, moduleEntity.coherence, moduleEntity.uncertainty⟩,
            .middle (calculate_quantum_state sin r.time r.coherence r.uncertainty)⟩
        issued := w.issued ++
          [⟨r.call, .middleRing, w.time, moduleEntity.coherence, moduleEntity.uncertainty⟩] } := by
  simp only [resume, h]

theorem resume_middle {α : Type} [Field α] (sin : α → α) (i : Nat) (w : World α)
    (r : Request α) (o : VisualState α) (h : w.calls[i]? = some ⟨r, .middle o⟩) :
    resume sin i w =
      { w with
        calls := w.calls.set i
          ⟨⟨r.call, .innerRing, w.time, dataEntity.coherence, dataEntity.uncertainty⟩,
            .inner o (calculate_quantum_state sin r.time r.coherence r.uncertainty)⟩
        issued := w.issued ++
          [⟨r.call, .innerRing, w.time, dataEntity.coherence, dataEntity.uncertainty⟩] } := by
  simp only [resume, h]

theorem resume_inner {α : Type} [Field α] (sin : α → α) (i : Nat) (w : World α)
    (r : Request α) (o m : VisualState α) (h : w.calls[i]? = some ⟨r, .inner o m⟩) :
    resume sin i w =
      { w with
        calls := w.calls.eraseIdx i
        outerRing := writeState o
        middleRing := writeState m
        innerRing := writeState (calculate_quantum_state sin r.time r.coherence r.uncertainty) } := by
  simp only [resume, h]

theorem abandon_none {α : Type} (i : Nat) (w : World α) (h : w.calls[i]? = none) :
    abandon i w = w := by
  simp only [abandon, h]

theorem abandon_some {α : Type} (i : Nat) (w : World α) (c : Call α)
    (h : w.calls[i]? = some c) :
    abandon i w = { w with calls := w.calls.eraseIdx i, rejections := w.rejections + 1 } := by
  simp only [abandon, h]

theorem resume_calls_length {α : Type} [Field α] (sin : α → α) (i : Nat) (w : World α) :
    (resume sin i w).calls.length ≤ w.calls.length := by
  cases h : w.calls[i]? with
  | none => rw [resume_none sin i w h]
  | some c =>
    obtain ⟨r, p⟩ := c
    cases p with
    | outer => rw [resume_outer sin i w r h]; simp
    | middle o => rw [resume_middle sin i w r o h]; simp
    | inner o m => rw [resume_inner sin i w r o m h]; exact List.length_eraseIdx_le _ _

theorem abandon_calls_length {α : Type} (i : Nat) (w : World α) :
    (abandon i w).calls.length ≤ w.calls.length := by
  unfold abandon
  cases h : w.calls[i]? <;> simp [List.length_eraseIdx_le]

theorem animate_calls_length {α : Type} [Field α] (w : World α) :
    (animate w).calls.length ≤ w.calls.length + 1 := by
  cases h : w.initialized with
  | false => rw [(animate_not_ready w h).2.1]; omega
  | true => rw [(animate_ready w h).2.1]; simp

theorem step_calls_length {α : Type} [Field α] (sin : α → α) (w : World α) (e : Event) :
    (step sin w e).calls.length ≤ w.calls.length + ticks [e] := by
  cases e with
  | tick =>
    simp only [step, ticks, List.count_singleton_self]
    split
    · omega
    · exact animate_calls_length _
  | resolve i =>
    have := resume_calls_length sin i w
    simp only [step, ticks]
    omega
  | reject i =>
    have := abandon_calls_length i w
    simp only [step, ticks]
    omega

theorem ticks_cons (e : Event) (evs : List Event) : ticks (e :: evs) = ticks [e] + ticks evs := by
  simp only [ticks, List.count_cons, List.count_nil]
  omega

theorem run_calls_length {α : Type} [Field α] (sin : α → α) (evs : List Event) :
    ∀ w : World α, (run sin evs w).calls.length ≤ w.calls.length + ticks evs := by
  induction evs with
  | nil => intro w; simp [run_nil]
  | cons e evs ih =>
    intro w
    have h1 := step_calls_length sin w e
    have h2 := ih (step sin w e)
    rw [run_cons, ticks_cons]
    omega

theorem outstanding_length_le {α : Type} (e : EntityId) (w : World α) :
    (outstanding e w).length ≤ w.calls.length := by
  unfold outstanding
  calc ((w.calls.map Call.request).filter (fun r => r.entity = e)).length
      ≤ (w.calls.map Call.request).length := List.length_filter_le _ _
    _ = w.calls.length := List.length_map _ _

theorem numbered_append {α : Type} (w : World α) (h : Numbered w) (r : Request α)
    (p : Await α) (hr : r.call = w.nextCall) :
    Numbered { w with calls := w.calls ++ [Call.mk r p], nextCall := w.nextCall + 1 } := by
  obtain ⟨hn, hlt⟩ := h
  constructor
  · show ((w.calls ++ [Call.mk r p]).map (fun c => c.request.call)).Nodup
    rw [List.map_append, List.nodup_append]
    refine ⟨hn, by simp, ?_⟩
    intro a ha hb
    simp only [List.map_cons, List.map_nil, List.mem_singleton] at hb
    obtain ⟨c, hc, hca⟩ := List.mem_map.mp ha
    have := hlt c hc
    rw [hca, hb] at this
    change r.call < w.nextCall at this
    omega
  · intro c hc
    show c.request.call < w.nextCall + 1
    change c ∈ w.calls ++ [Call.mk r p] at hc
    rcases List.mem_append.mp hc with hc | hc
    · have := hlt c hc; omega
    · simp only [List.mem_singleton] at hc
      rw [hc]
      show r.call < w.nextCall + 1
      omega

theorem numbered_animate {α : Type} [Field α] (w : World α) (h : Numbered w) :
    Numbered (animate w) := by
  cases hi : w.initialized with
  | false =>
    obtain ⟨-, hc, -, hn⟩ := animate_not_ready w hi
    unfold Numbered
    rw [hc, hn]
    exact h
  | true =>
    obtain ⟨-, hc, -, hn⟩ := animate_ready w hi
    have := numbered_append w h
      ⟨w.nextCall, .outerRing, w.time + 0.01, quantumEntity.coherence,
        quantumEntity.uncertainty⟩ .outer rfl
    unfold Numbered at this ⊢
    rw [hc, hn]
    exact this

theorem numbered_eraseIdx {α : Type} (w : World α) (h : Numbered w) (i : Nat)
    (w' : World α) (hc : w'.calls = w.calls.eraseIdx i) (hn : w'.nextCall = w.nextCall) :
    Numbered w' := by
  obtain ⟨hnd, hlt⟩ := h
  unfold Numbered
  rw [hc, hn]
  refine ⟨?_, fun c hmem => hlt c (List.mem_of_mem_eraseIdx hmem)⟩
  exact hnd.sublist ((List.eraseIdx_sublist w.calls i).map _)

theorem numbered_set {α : Type} (w : World α) (h : Numbered w) (i : Nat) (c c' : Call α)
    (hi : w.calls[i]? = some c)
    (w' : World α) (hc : w'.calls = w.calls.set i c') (hn : w'.nextCall = w.nextCall)
    (hcall : c'.request.call = c.request.call) :
    Numbered w' := by
  obtain ⟨hnd, hlt⟩ := h
  unfold Numbered
  rw [hc, hn]
  refine ⟨?_, ?_⟩
  · rw [map_set_same (fun c => c.request.call) c c' w.calls i hi hcall]
    exact hnd
  · intro d hd
    rcases List.mem_or_eq_of_mem_set hd with hd | hd
    · exact hlt d hd
    · rw [hd, hcall]
      exact hlt c (List.mem_iff_getElem?.mpr ⟨i, hi⟩)

theorem numbered_resume {α : Type} [Field α] (sin : α → α) (i : Nat) (w : World α)
    (h : Numbered w) : Numbered (resume sin i w) := by
  cases hi : w.calls[i]? with
  | none => rw [resume_none sin i w hi]; exact h
  | some c =>
    obtain ⟨r, p⟩ := c
    cases p with
    | outer =>
      rw [resume_outer sin i w r hi]
      exact numbered_set w h i _ _ hi _ rfl rfl rfl
    | middle o =>
      rw [resume_middle sin i w r o hi]
      exact numbered_set w h i _ _ hi _ rfl rfl rfl
    | inner o m =>
      rw [resume_inner sin i w r o m hi]
      exact numbered_eraseIdx w h i _ rfl rfl

theorem numbered_abandon {α : Type} (i : Nat) (w : World α) (h : Numbered w) :
    Numbered (abandon i w) := by
  cases hi : w.calls[i]? with
  | none => rw [abandon_none i w hi]; exact h
  | some c =>
    rw [abandon_some i w c hi]
    exact numbered_eraseIdx w h i _ rfl rfl

theorem numbered_step {α : Type} [Field α] (sin : α → α) (w : World α) (e : Event)
    (h : Numbered w) : Numbered (step sin w e) := by
  cases e with
  | tick =>
    simp only [step]
    split
    · exact h
    · exact numbered_animate _ h
  | resolve i => exact numbered_resume sin i w h
  | reject i => exact numbered_abandon i w h

theorem numbered_run {α : Type} [Field α] (sin : α → α) (evs : List Event) :
    ∀ w : World α, Numbered w → Numbered (run sin evs w) := by
  induction evs with
  | nil => intro w h; exact h
  | cons e evs ih => intro w h; exact ih _ (numbered_step sin w e h)

theorem numbered_initial {α : Type} [Field α] (ready : Bool) :
    Numbered (World.initial ready : World α) := by
  simp [Numbered, World.initial]

theorem numbered_start {α : Type} [Field α] (b : Bootstrap) : Numbered (start b : World α) := by
  cases b with
  | fulfilled => exact numbered_animate _ (numbered_initial true)
  | rejected => exact numbered_initial false

theorem start_calls_length {α : Type} [Field α] (b : Bootstrap) :
    (start b : World α).calls.length ≤ 1 := by
  cases b with
  | fulfilled =>
    have := animate_calls_length (World.initial true : World α)
    simpa [start, World.initial] using this
  | rejected => simp [start, World.initial]

/-- C1, as the code has it. At every instant the suspended calls of
`updateEntities` have pairwise distinct numbers and each awaits one request,
so an entity has at most as many outstanding requests as there are calls in
flight, and these are at most one per tick run so far; a tick in which
`isInitialized()` is true issues a new request for the outer entity whether
or not earlier ones are still pending. -/
theorem outstanding_requests_bound {α : Type} [Field α] (sin : α → α) (b : Bootstrap)
    (evs : List Event) :
    ((run sin evs (start b)).calls.map (fun c => c.request.call)).Nodup ∧
    (∀ e : EntityId,
      (outstanding e (run sin evs (start b))).length ≤ (run sin evs (start b)).calls.length) ∧
    (run sin evs (start b)).calls.length ≤ ticks evs + 1 ∧
    ∀ w : World α, w.initialized = true →
      outstanding .outerRing (animate w) = outstanding .outerRing w ++
        [⟨w.nextCall, .outerRing, w.time + 0.01, quantumEntity.coherence,
          quantumEntity.uncertainty⟩] := by
  refine ⟨(numbered_run sin evs _ (numbered_start b)).1,
    fun e => outstanding_length_le e _, ?_, ?_⟩
  · have h1 := run_calls_length sin evs (start b)
    have h2 := start_calls_length (α := α) b
    omega
  · intro w hw
    unfold outstanding
    rw [(animate_ready w hw).2.1]
    simp [List.filter_append]

theorem outstanding_requests_bound_witness :
    (World.initial true : World ℚ).initialized = true ∧
    outstanding .outerRing (animate (World.initial true : World ℚ))
      = outstanding .outerRing (World.initial true : World ℚ) ++
        [⟨(World.initial true : World ℚ).nextCall, .outerRing,
          (World.initial true : World ℚ).time + 0.01, quantumEntity.coherence,
          quantumEntity.uncertainty⟩] :=
  ⟨rfl, (outstanding_requests_bound (fun _ => 0) .fulfilled []).2.2.2
    (World.initial true : World ℚ) rfl⟩

/-- C1 fails as stated: after a successful bootstrap and one further refresh,
with no request resolved in between, the outer entity has two outstanding
requests, made by call 0 and by call 1. -/
theorem outstanding_requests_counterexample :
    (outstanding .outerRing (run Real.sin [.tick] (start .fulfilled : World ℝ))).length = 2 ∧
    (outstanding .outerRing (run Real.sin [.tick] (start .fulfilled : World ℝ))).map
        Request.call = [0, 1] ∧
    ¬ ((outstanding .outerRing
        (run Real.sin [.tick] (start .fulfilled : World ℝ))).length ≤ 1) := by
  have h : (outstanding .outerRing (run Real.sin [.tick] (start .fulfilled : World ℝ))).map
      Request.call = [0, 1] := by
    simp [run, step, start, animate, updateEntities, outstanding, World.initial]
  have hl := congrArg List.length h
  simp only [List.length_map, List.length_cons, List.length_nil] at hl
  exact ⟨hl, h, by omega⟩

/-! ### One call of `updateEntities` from start to end -/

theorem eraseIdx_set_same {β : Type} (a : β) :
    ∀ (l : List β) (i : Nat), (l.set i a).eraseIdx i = l.eraseIdx i := by
  intro l
  induction l with
  | nil => intro i; simp
  | cons b l ih =>
    intro i
    cases i with
    | zero => simp [List.set]
    | succ i => simp [List.set, List.eraseIdx_cons_succ, ih i]

theorem resume_thrice {α : Type} [Field α] (sin : α → α) (n : Nat) (v : World α)
    (r : Request α) (h : v.calls[n]? = some ⟨r, .outer⟩) :
    run sin [.resolve n, .resolve n, .resolve n] v =
      { v with
        calls := v.calls.eraseIdx n
        issued := v.issued ++
          [⟨r.call, .middleRing, v.time, moduleEntity.coherence, moduleEntity.uncertainty⟩,
            ⟨r.call, .innerRing, v.time, dataEntity.coherence, dataEntity.uncertainty⟩]
        outerRing := writeState (calculate_quantum_state sin r.time r.coherence r.uncertainty)
        middleRing := writeState
          (calculate_quantum_state sin v.time moduleEntity.coherence moduleEntity.uncertainty)
        innerRing := writeState
          (calculate_quantum_state sin v.time dataEntity.coherence dataEntity.uncertainty) } := by
  have hn : n < v.calls.length := (List.getElem?_eq_some.mp h).1
  have e1 := resume_outer sin n v r h
  have h1 : (resume sin n v).calls[n]? = some
      ⟨⟨r.call, .middleRing, v.time, moduleEntity.coherence, moduleEntity.uncertainty⟩,
        .middle (calculate_quantum_state sin r.time r.coherence r.uncertainty)⟩ := by
    rw [e1]; exact List.getElem?_set_self hn
  have e2 := resume_middle sin n (resume sin n v) _ _ h1
  have h2 : (resume sin n (resume sin n v)).calls[n]? = some
      ⟨⟨r.call, .innerRing, v.time, dataEntity.coherence, dataEntity.uncertainty⟩,
        .inner (calculate_quantum_state sin r.time r.coherence r.uncertainty)
          (calculate_quantum_state sin v.time moduleEntity.coherence
            moduleEntity.uncertainty)⟩ := by
    rw [e2, e1]; exact List.getElem?_set_self (by simpa using hn)
  have e3 := resume_inner sin n (resume sin n (resume sin n v)) _ _ _ h2
  simp only [run, List.foldl, step]
  rw [e3, e2, e1]
  simp [List.set_set, eraseIdx_set_same]

theorem animate_last_call {α : Type} [Field α] (w : World α) (hw : w.initialized = true) :
    (animate w).calls[w.calls.length]? = some
      ⟨⟨w.nextCall, .outerRing, w.time + 0.01, quantumEntity.coherence,
        quantumEntity.uncertainty⟩, .outer⟩ := by
  rw [(animate_ready w hw).2.1]
  exact List.getElem?_concat_length _ _

theorem eraseIdx_concat_length {β : Type} (l : List β) (a : β) :
    (l ++ [a]).eraseIdx l.length = l := by
  rw [List.eraseIdx_append_of_length_le (Nat.le_refl _)]
  simp

theorem step_onSchedule {α : Type} [Field α] (sin : α → α) (k : Nat) (t : α)
    (v : World α) (e : Event) (he : e ≠ .tick) (ht : v.time = t)
    (hI : ∀ c ∈ v.calls, c.request.call = k → OnSchedule sin k t c) :
    (step sin v e).time = t ∧
      ∀ c ∈ (step sin v e).calls, c.request.call = k → OnSchedule sin k t c := by
  subst ht
  cases e with
  | tick => exact absurd rfl he
  | reject i =>
    simp only [step]
    cases h : v.calls[i]? with
    | none => rw [abandon_none i v h]; exact ⟨rfl, hI⟩
    | some c =>
      rw [abandon_some i v c h]
      exact ⟨rfl, fun d hd => hI d (List.mem_of_mem_eraseIdx hd)⟩
  | resolve i =>
    simp only [step]
    cases h : v.calls[i]? with
    | none => rw [resume_none sin i v h]; exact ⟨rfl, hI⟩
    | some c =>
      have hmem : c ∈ v.calls := List.mem_iff_getElem?.mpr ⟨i, h⟩
      obtain ⟨r, p⟩ := c
      cases p with
      | outer =>
        rw [resume_outer sin i v r h]
        refine ⟨rfl, ?_⟩
        intro d hd hdk
        rcases List.mem_or_eq_of_mem_set hd with hd | hd
        · exact hI d hd hdk
        · subst hd
          rcases hI _ hmem hdk with hg | hg | hg
          · cases hg; exact Or.inr (Or.inl rfl)
          · cases hg
          · cases hg
      | middle o =>
        rw [resume_middle sin i v r o h]
        refine ⟨rfl, ?_⟩
        intro d hd hdk
        rcases List.mem_or_eq_of_mem_set hd with hd | hd
        · exact hI d hd hdk
        · subst hd
          rcases hI _ hmem hdk with hg | hg | hg
          · cases hg
          · cases hg; exact Or.inr (Or.inr rfl)
          · cases hg
      | inner o m =>
        rw [resume_inner sin i v r o m h]
        exact ⟨rfl, fun d hd => hI d (List.mem_of_mem_eraseIdx hd)⟩

theorem run_onSchedule {α : Type} [Field α] (sin : α → α) (k : Nat) (t : α)
    (evs : List Event) :
    ∀ v : World α, Event.tick ∉ evs → v.time = t →
      (∀ c ∈ v.calls, c.request.call = k → OnSchedule sin k t c) →
      (run sin evs v).time = t ∧
        ∀ c ∈ (run sin evs v).calls, c.request.call = k → OnSchedule sin k t c := by
  induction evs with
  | nil => intro v _ ht hI; exact ⟨ht, hI⟩
  | cons e evs ih =>
    intro v hev ht hI
    have he : e ≠ .tick := fun h => hev (by simp [h])
    have hevs : Event.tick ∉ evs := fun h => hev (List.mem_cons_of_mem _ h)
    obtain ⟨ht', hI'⟩ := step_onSchedule sin k t v e he ht hI
    rw [run_cons]
    exact ih _ hevs ht' hI'

theorem animate_onSchedule {α : Type} [Field α] (sin : α → α) (w : World α)
    (hw : w.initialized = true) (hfresh : ∀ c ∈ w.calls, c.request.call ≠ w.nextCall) :
    ∀ c ∈ (animate w).calls, c.request.call = w.nextCall →
      OnSchedule sin w.nextCall (w.time + 0.01) c := by
  intro c hc hk
  rw [(animate_ready w hw).2.1] at hc
  rcases List.mem_append.mp hc with hc | hc
  · exact absurd hk (hfresh c hc)
  · simp only [List.mem_singleton] at hc
    exact Or.inl hc

/-- C8. When a tick with `isInitialized()` true is followed by the three
resolutions of its call, then on completion every field of each ring holds
the state function's value for that ring's own entity at the time `t` reached
by this call's 0.01 increment: outer at (t, 0.9, 0.2), middle at (t, 0.7,
0.3), inner at (t, 0.5, 0.5); the fallback increments are overwritten. The
same holds at the moment the call completes when resolutions and rejections
of other calls are interleaved in any way, as long as no other tick runs. -/
theorem results_written_to_bound_rings {α : Type} [Field α] (sin : α → α) (w : World α)
    (hw : w.initialized = true) :
    ((run sin [.resolve w.calls.length, .resolve w.calls.length, .resolve w.calls.length]
        (animate w)).outerRing =
      ⟨⟨(calculate_quantum_state sin (w.time + 0.01) 0.9 0.2).x_rotation,
          (calculate_quantum_state sin (w.time + 0.01) 0.9 0.2).y_rotation,
          (calculate_quantum_state sin (w.time + 0.01) 0.9 0.2).z_rotation⟩,
        ⟨(calculate_quantum_state sin (w.time + 0.01) 0.9 0.2).energy⟩⟩ ∧
    (run sin [.resolve w.calls.length, .resolve w.calls.length, .resolve w.calls.length]
        (animate w)).middleRing =
      ⟨⟨(calculate_quantum_state sin (w.time + 0.01) 0.7 0.3).x_rotation,
          (calculate_quantum_state sin (w.time + 0.01) 0.7 0.3).y_rotation,
          (calculate_quantum_state sin (w.time + 0.01) 0.7 0.3).z_rotation⟩,
        ⟨(calculate_quantum_state sin (w.time + 0.01) 0.7 0.3).energy⟩⟩ ∧
    (run sin [.resolve w.calls.length, .resolve w.calls.length, .resolve w.calls.length]
        (animate w)).innerRing =
      ⟨⟨(calculate_quantum_state sin (w.time + 0.01) 0.5 0.5).x_rotation,
          (calculate_quantum_state sin (w.time + 0.01) 0.5 0.5).y_rotation,
          (calculate_quantum_state sin (w.time + 0.01) 0.5 0.5).z_rotation⟩,
        ⟨(calculate_quantum_state sin (w.time + 0.01) 0.5 0.5).energy⟩⟩ ∧
    (run sin [.resolve w.calls.length, .resolve w.calls.length, .resolve w.calls.length]
        (animate w)).calls = w.calls) ∧
    ∀ (evs : List Event) (i : Nat) (r : Request α) (o m : VisualState α),
      Event.tick ∉ evs →
      (∀ c ∈ w.calls, c.request.call ≠ w.nextCall) →
      (run sin evs (animate w)).calls[i]? = some ⟨r, .inner o m⟩ →
      r.call = w.nextCall →
      (step sin (run sin evs (animate w)) (.resolve i)).outerRing =
        ⟨⟨(calculate_quantum_state sin (w.time + 0.01) 0.9 0.2).x_rotation,
            (calculate_quantum_state sin (w.time + 0.01) 0.9 0.2).y_rotation,
            (calculate_quantum_state sin (w.time + 0.01) 0.9 0.2).z_rotation⟩,
          ⟨(calculate_quantum_state sin (w.time + 0.01) 0.9 0.2).energy⟩⟩ ∧
      (step sin (run sin evs (animate w)) (.resolve i)).middleRing =
        ⟨⟨(calculate_quantum_state sin (w.time + 0.01) 0.7 0.3).x_rotation,
            (calculate_quantum_state sin (w.time + 0.01) 0.7 0.3).y_rotation,
            (calculate_quantum_state sin (w.time + 0.01) 0.7 0.3).z_rotation⟩,
          ⟨(calculate_quantum_state sin (w.time + 0.01) 0.7 0.3).energy⟩⟩ ∧
      (step sin (run sin evs (animate w)) (.resolve i)).innerRing =
        ⟨⟨(calculate_quantum_state sin (w.time + 0.01) 0.5 0.5).x_rotation,
            (calculate_quantum_state sin (w.time + 0.01) 0.5 0.5).y_rotation,
            (calculate_quantum_state sin (w.time + 0.01) 0.5 0.5).z_rotation⟩,
          ⟨(calculate_quantum_state sin (w.time + 0.01) 0.5 0.5).energy⟩⟩ := by
  obtain ⟨ht, hc, -, -⟩ := animate_ready w hw
  constructor
  · rw [resume_thrice sin _ _ _ (animate_last_call w hw)]
    refine ⟨rfl, ?_, ?_, ?_⟩
    · show writeState _ = _
      rw [ht]; rfl
    · show writeState _ = _
      rw [ht]; rfl
    · show (animate w).calls.eraseIdx w.calls.length = w.calls
      rw [hc, eraseIdx_concat_length]
  · intro evs i r o m hevs hfresh h hk
    obtain ⟨-, hI⟩ := run_onSchedule sin w.nextCall (w.time + 0.01) evs (animate w) hevs ht
      (animate_onSchedule sin w hw hfresh)
    have hg := hI _ (List.mem_iff_getElem?.mpr ⟨i, h⟩) hk
    simp only [step]
    rw [resume_inner sin i _ r o m h]
    rcases hg with hg | hg | hg
    · cases hg
    · cases hg
    · cases hg
      exact ⟨rfl, rfl, rfl⟩

theorem results_written_to_bound_rings_witness :
    (World.initial true : World ℝ).initialized = true ∧
    Event.tick ∉ [Event.resolve 0, Event.resolve 0] ∧
    (∀ c ∈ (World.initial true : World ℝ).calls,
      c.request.call ≠ (World.initial true : World ℝ).nextCall) ∧
    (run Real.sin [.resolve 0, .resolve 0] (animate (World.initial true : World ℝ))).calls[0]?
      = some ⟨⟨0, .innerRing, 0 + 0.01, 0.5, 0.5⟩,
          .inner (calculate_quantum_state Real.sin (0 + 0.01) 0.9 0.2)
            (calculate_quantum_state Real.sin (0 + 0.01) 0.7 0.3)⟩ ∧
    (step Real.sin (run Real.sin [.resolve 0, .resolve 0]
        (animate (World.initial true : World ℝ))) (.resolve 0)).outerRing =
      ⟨⟨(calculate_quantum_state Real.sin (0 + 0.01) 0.9 0.2).x_rotation,
          (calculate_quantum_state Real.sin (0 + 0.01) 0.9 0.2).y_rotation,
          (calculate_quantum_state Real.sin (0 + 0.01) 0.9 0.2).z_rotation⟩,
        ⟨(calculate_quantum_state Real.sin (0 + 0.01) 0.9 0.2).energy⟩⟩ :=
  ⟨rfl, (by decide), (fun c hc => nomatch hc), rfl,
    ((results_written_to_bound_rings Real.sin (World.initial true : World ℝ) rfl).2
      [Event.resolve 0, Event.resolve 0] 0 _ _ _ (by decide) (fun c hc => nomatch hc)
      rfl rfl).1⟩

/-! ### The `time` a request carries -/

theorem step_issued_time {α : Type} [Field α] (sin : α → α) (v : World α) (e : Event)
    (he : e ≠ .tick) :
    (step sin v e).time = v.time ∧
      ∃ new, (step sin v e).issued = v.issued ++ new ∧ ∀ r ∈ new, r.time = v.time := by
  cases e with
  | tick => exact absurd rfl he
  | reject i =>
    obtain ⟨-, -, -, -, -, ht, hi, -⟩ := abandon_frame i v
    exact ⟨ht, [], by simpa [step] using hi, by simp⟩
  | resolve i =>
    simp only [step]
    cases h : v.calls[i]? with
    | none => rw [resume_none sin i v h]; exact ⟨rfl, [], by simp, by simp⟩
    | some c =>
      obtain ⟨r, p⟩ := c
      cases p with
      | outer => rw [resume_outer sin i v r h]; exact ⟨rfl, _, rfl, by simp⟩
      | middle o => rw [resume_middle sin i v r o h]; exact ⟨rfl, _, rfl, by simp⟩
      | inner o m => rw [resume_inner sin i v r o m h]; exact ⟨rfl, [], by simp, by simp⟩

theorem run_issued_time {α : Type} [Field α] (sin : α → α) (evs : List Event) :
    ∀ v : World α, Event.tick ∉ evs →
      (run sin evs v).time = v.time ∧
        ∃ new, (run sin evs v).issued = v.issued ++ new ∧ ∀ r ∈ new, r.time = v.time := by
  induction evs with
  | nil => intro v _; exact ⟨rfl, [], by simp [run_nil], by simp⟩
  | cons e evs ih =>
    intro v hev
    have he : e ≠ .tick := fun h => hev (by simp [h])
    have hevs : Event.tick ∉ evs := fun h => hev (List.mem_cons_of_mem _ h)
    obtain ⟨ht, new₁, hi₁, hn₁⟩ := step_issued_time sin v e he
    obtain ⟨ht', new₂, hi₂, hn₂⟩ := ih (step sin v e) hevs
    rw [run_cons]
    refine ⟨ht'.trans ht, new₁ ++ new₂, ?_, ?_⟩
    · rw [hi₂, hi₁, List.append_assoc]
    · intro r hr
      rcases List.mem_append.mp hr with hr | hr
      · exact hn₁ r hr
      · rw [hn₂ r hr, ht]

/-- C10, as the code has it. The request a tick issues for the outer entity
carries the value of `time` right after that tick's 0.01 increment; a request
issued when a call resumes carries the value the variable `time` has at that
moment. Hence as long as no later tick runs, every request issued carries the
tick's time, and the three requests of its call carry the same value. -/
theorem requests_carry_current_time {α : Type} [Field α] (sin : α → α) (w : World α)
    (hw : w.initialized = true) (evs : List Event) (hevs : Event.tick ∉ evs) :
    (animate w).time = w.time + 0.01 ∧
    (animate w).issued = w.issued ++ [⟨w.nextCall, .outerRing, w.time + 0.01, 0.9, 0.2⟩] ∧
    (∀ (v : World α) (i : Nat) (r : Request α), v.calls[i]? = some ⟨r, .outer⟩ →
      (step sin v (.resolve i)).issued
        = v.issued ++ [⟨r.call, .middleRing, v.time, 0.7, 0.3⟩]) ∧
    (∀ (v : World α) (i : Nat) (r : Request α) (o : VisualState α),
      v.calls[i]? = some ⟨r, .middle o⟩ →
      (step sin v (.resolve i)).issued
        = v.issued ++ [⟨r.call, .innerRing, v.time, 0.5, 0.5⟩]) ∧
    (∃ new, (run sin evs (animate w)).issued = (animate w).issued ++ new ∧
      ∀ r ∈ new, r.time = w.time + 0.01) ∧
    (run sin [.resolve w.calls.length, .resolve w.calls.length, .resolve w.calls.length]
        (animate w)).issued =
      w.issued ++
        [⟨w.nextCall, .outerRing, w.time + 0.01, 0.9, 0.2⟩,
          ⟨w.nextCall, .middleRing, w.time + 0.01, 0.7, 0.3⟩,
          ⟨w.nextCall, .innerRing, w.time + 0.01, 0.5, 0.5⟩] := by
  obtain ⟨ht, -, hi, -⟩ := animate_ready w hw
  refine ⟨ht, hi, ?_, ?_, ?_, ?_⟩
  · intro v i r h
    simp only [step]
    rw [resume_outer sin i v r h]
    rfl
  · intro v i r o h
    simp only [step]
    rw [resume_middle sin i v r o h]
    rfl
  · obtain ⟨-, new, h1, h2⟩ := run_issued_time sin evs (animate w) hevs
    exact ⟨new, h1, fun r hr => by rw [h2 r hr, ht]⟩
  · rw [resume_thrice sin _ _ _ (animate_last_call w hw)]
    show (animate w).issued ++ _ = _
    rw [hi, ht]
    simp [moduleEntity, dataEntity, quantumEntity]

theorem requests_carry_current_time_witness :
    (World.initial true : World ℝ).initialized = true ∧
    Event.tick ∉ [Event.resolve 0, Event.resolve 0] ∧
    (run Real.sin [.resolve 0, .resolve 0, .resolve 0]
        (animate (World.initial true : World ℝ))).issued =
      (World.initial true : World ℝ).issued ++
        [⟨0, .outerRing, 0 + 0.01, 0.9, 0.2⟩,
          ⟨0, .middleRing, 0 + 0.01, 0.7, 0.3⟩,
          ⟨0, .innerRing, 0 + 0.01, 0.5, 0.5⟩] ∧
    (World.suspended (0.02 : ℝ) [⟨⟨0, .outerRing, 0.01, 0.9, 0.2⟩, .outer⟩]).calls[0]?
      = some ⟨⟨0, .outerRing, 0.01, 0.9, 0.2⟩, .outer⟩ ∧
    (step Real.sin (World.suspended (0.02 : ℝ) [⟨⟨0, .outerRing, 0.01, 0.9, 0.2⟩, .outer⟩])
        (.resolve 0)).issued = [] ++ [⟨0, .middleRing, 0.02, 0.7, 0.3⟩] ∧
    (World.suspended (0.03 : ℝ)
        [⟨⟨0, .middleRing, 0.02, 0.7, 0.3⟩, .middle ⟨0, 0, 0, 0.5⟩⟩]).calls[0]?
      = some ⟨⟨0, .middleRing, 0.02, 0.7, 0.3⟩, .middle ⟨0, 0, 0, 0.5⟩⟩ ∧
    (step Real.sin (World.suspended (0.03 : ℝ)
        [⟨⟨0, .middleRing, 0.02, 0.7, 0.3⟩, .middle ⟨0, 0, 0, 0.5⟩⟩])
        (.resolve 0)).issued = [] ++ [⟨0, .innerRing, 0.03, 0.5, 0.5⟩] :=
  ⟨rfl, by decide,
    (requests_carry_current_time Real.sin (World.initial true : World ℝ) rfl
      [Event.resolve 0, Event.resolve 0] (by decide)).2.2.2.2.2,
    rfl,
    (requests_carry_current_time Real.sin (World.initial true : World ℝ) rfl
      [Event.resolve 0, Event.resolve 0] (by decide)).2.2.1
      (World.suspended (0.02 : ℝ) [⟨⟨0, .outerRing, 0.01, 0.9, 0.2⟩, .outer⟩]) 0
      ⟨0, .outerRing, 0.01, 0.9, 0.2⟩ rfl,
    rfl,
    (requests_carry_current_time Real.sin (World.initial true : World ℝ) rfl
      [Event.resolve 0, Event.resolve 0] (by decide)).2.2.2.1
      (World.suspended (0.03 : ℝ)
        [⟨⟨0, .middleRing, 0.02, 0.7, 0.3⟩, .middle ⟨0, 0, 0, 0.5⟩⟩]) 0
      ⟨0, .middleRing, 0.02, 0.7, 0.3⟩ ⟨0, 0, 0, 0.5⟩ rfl⟩

/-- C10 fails as stated: when the second tick runs before the first call's
outer request resolves, the first call (number 0) passes `time = 0.01` for the
outer entity and `time = 0.02` for the middle entity. -/
theorem requests_time_counterexample :
    (run Real.sin [.tick, .resolve 0] (start .fulfilled : World ℝ)).issued =
      [⟨0, .outerRing, 0.01, 0.9, 0.2⟩,
        ⟨1, .outerRing, 0.02, 0.9, 0.2⟩,
        ⟨0, .middleRing, 0.02, 0.7, 0.3⟩] ∧
    (0.01 : ℝ) ≠ 0.02 := by
  constructor
  · simp [run, step, start, animate, updateEntities, resume, World.initial, quantumEntity,
      moduleEntity]
    norm_num
  · norm_num

/-! ### Rejections -/

theorem eraseIdx_ne_of_nodup {β γ : Type} (f : β → γ) (c : β) :
    ∀ (l : List β) (i : Nat), (l.map f).Nodup → l[i]? = some c →
      ∀ d ∈ l.eraseIdx i, f d ≠ f c := by
  intro l
  induction l with
  | nil => intro i _ h; simp at h
  | cons a l ih =>
    intro i hnd h d hd
    rw [List.map_cons, List.nodup_cons] at hnd
    cases i with
    | zero =>
      simp only [List.getElem?_cons_zero, Option.some.injEq] at h
      simp only [List.eraseIdx_cons_zero] at hd
      intro hfd
      exact hnd.1 (by rw [h, ← hfd]; exact List.mem_map_of_mem f hd)
    | succ i =>
      simp only [List.getElem?_cons_succ] at h
      simp only [List.eraseIdx_cons_succ, List.mem_cons] at hd
      rcases hd with hd | hd
      · intro hfd
        have hc : c ∈ l := List.mem_iff_getElem?.mpr ⟨i, h⟩
        exact hnd.1 (by rw [← hd, hfd]; exact List.mem_map_of_mem f hc)
      · exact ih i hnd.2 h d hd

theorem step_retired {α : Type} [Field α] (sin : α → α) (k : Nat) (v : World α) (e : Event)
    (hk : k < v.nextCall) (hc : ∀ c ∈ v.calls, c.request.call ≠ k) :
    (k < (step sin v e).nextCall ∧ ∀ c ∈ (step sin v e).calls, c.request.call ≠ k) ∧
      ∃ new, (step sin v e).issued = v.issued ++ new ∧ ∀ r ∈ new, r.call ≠ k := by
  cases e with
  | tick =>
    simp only [step]
    split
    · exact ⟨⟨hk, hc⟩, [], by simp, by simp⟩
    · rcases Bool.eq_false_or_eq_true v.initialized with hi | hi
      · obtain ⟨-, h2, h3, h4⟩ :=
          animate_ready ({ v with frames := v.frames - 1 } : World α) hi
        rw [h2, h3, h4]
        have hne : v.nextCall ≠ k := by omega
        refine ⟨⟨Nat.lt_succ_of_lt hk, ?_⟩, _, rfl, by simpa using hne⟩
        intro c hmem
        rcases List.mem_append.mp hmem with hmem | hmem
        · exact hc c hmem
        · simp only [List.mem_singleton] at hmem
          rw [hmem]
          exact hne
      · obtain ⟨-, h2, h3, h4⟩ :=
          animate_not_ready ({ v with frames := v.frames - 1 } : World α) hi
        rw [h2, h3, h4]
        exact ⟨⟨hk, hc⟩, [], by simp, by simp⟩
  | reject i =>
    simp only [step]
    cases h : v.calls[i]? with
    | none => rw [abandon_none i v h]; exact ⟨⟨hk, hc⟩, [], by simp, by simp⟩
    | some c =>
      rw [abandon_some i v c h]
      exact ⟨⟨hk, fun d hd => hc d (List.mem_of_mem_eraseIdx hd)⟩, [], by simp, by simp⟩
  | resolve i =>
    simp only [step]
    cases h : v.calls[i]? with
    | none => rw [resume_none sin i v h]; exact ⟨⟨hk, hc⟩, [], by simp, by simp⟩
    | some c =>
      have hck : c.request.call ≠ k := hc c (List.mem_iff_getElem?.mpr ⟨i, h⟩)
      obtain ⟨r, p⟩ := c
      cases p with
      | outer =>
        rw [resume_outer sin i v r h]
        refine ⟨⟨hk, ?_⟩, _, rfl, by simpa using hck⟩
        intro d hd
        rcases List.mem_or_eq_of_mem_set hd with hd | hd
        · exact hc d hd
        · rw [hd]; exact hck
      | middle o =>
        rw [resume_middle sin i v r o h]
        refine ⟨⟨hk, ?_⟩, _, rfl, by simpa using hck⟩
        intro d hd
        rcases List.mem_or_eq_of_mem_set hd with hd | hd
        · exact hc d hd
        · rw [hd]; exact hck
      | inner o m =>
        rw [resume_inner sin i v r o m h]
        exact ⟨⟨hk, fun d hd => hc d (List.mem_of_mem_eraseIdx hd)⟩, [], by simp, by simp⟩

theorem run_retired {α : Type} [Field α] (sin : α → α) (k : Nat) (evs : List Event) :
    ∀ v : World α, k < v.nextCall → (∀ c ∈ v.calls, c.request.call ≠ k) →
      ∃ new, (run sin evs v).issued = v.issued ++ new ∧ ∀ r ∈ new, r.call ≠ k := by
  induction evs with
  | nil => intro v _ _; exact ⟨[], by simp [run_nil], by simp⟩
  | cons e evs ih =>
    intro v hk hc
    obtain ⟨⟨hk', hc'⟩, new₁, hi₁, hn₁⟩ := step_retired sin k v e hk hc
    obtain ⟨new₂, hi₂, hn₂⟩ := ih (step sin v e) hk' hc'
    rw [run_cons]
    refine ⟨new₁ ++ new₂, by rw [hi₂, hi₁, List.append_assoc], ?_⟩
    intro r hr
    rcases List.mem_append.mp hr with hr | hr
    · exact hn₁ r hr
    · exact hn₂ r hr

/-- C9, as the code has it. When the request a call of `updateEntities`
awaits is rejected, whichever entity it is for, the call ends there: at that
moment no ring is written and no request is issued, the rejection is left
unhandled, and in every continuation of the run no further request is issued
by that call, so that none of its entities receives a state from it. -/
theorem rejection_abandons_call {α : Type} [Field α] (sin : α → α) (b : Bootstrap)
    (evs₀ : List Event) (i : Nat) (c : Call α)
    (h : (run sin evs₀ (start b)).calls[i]? = some c) (evs : List Event) :
    (step sin (run sin evs₀ (start b)) (.reject i)).outerRing
        = (run sin evs₀ (start b)).outerRing ∧
    (step sin (run sin evs₀ (start b)) (.reject i)).middleRing
        = (run sin evs₀ (start b)).middleRing ∧
    (step sin (run sin evs₀ (start b)) (.reject i)).innerRing
        = (run sin evs₀ (start b)).innerRing ∧
    (step sin (run sin evs₀ (start b)) (.reject i)).issued
        = (run sin evs₀ (start b)).issued ∧
    (step sin (run sin evs₀ (start b)) (.reject i)).calls
        = (run sin evs₀ (start b)).calls.eraseIdx i ∧
    (step sin (run sin evs₀ (start b)) (.reject i)).rejections
        = (run sin evs₀ (start b)).rejections + 1 ∧
    ∃ new, (run sin evs (step sin (run sin evs₀ (start b)) (.reject i))).issued
        = (run sin evs₀ (start b)).issued ++ new ∧
      ∀ r ∈ new, r.call ≠ c.request.call := by
  have hN := numbered_run sin evs₀ _ (numbered_start (α := α) b)
  obtain ⟨-, -, ho, hm, hi, -, hs, -⟩ := abandon_frame i (run sin evs₀ (start b))
  have hstep : step sin (run sin evs₀ (start b)) (.reject i)
      = abandon i (run sin evs₀ (start b)) := rfl
  have hcalls : (abandon i (run sin evs₀ (start b))).calls
      = (run sin evs₀ (start b)).calls.eraseIdx i := by
    rw [abandon_some i _ c h]
  have hnext : (abandon i (run sin evs₀ (start b))).nextCall
      = (run sin evs₀ (start b)).nextCall := by
    rw [abandon_some i _ c h]
  have hrej : (abandon i (run sin evs₀ (start b))).rejections
      = (run sin evs₀ (start b)).rejections + 1 := by
    rw [abandon_some i _ c h]
  rw [hstep]
  refine ⟨ho, hm, hi, hs, hcalls, hrej, ?_⟩
  have hlt : c.request.call < (abandon i (run sin evs₀ (start b))).nextCall := by
    rw [hnext]
    exact hN.2 c (List.mem_iff_getElem?.mpr ⟨i, h⟩)
  have hne : ∀ d ∈ (abandon i (run sin evs₀ (start b))).calls,
      d.request.call ≠ c.request.call := by
    rw [hcalls]
    exact eraseIdx_ne_of_nodup (fun c => c.request.call) c _ i hN.1 h
  obtain ⟨new, h1, h2⟩ := run_retired sin c.request.call evs _ hlt hne
  exact ⟨new, by rw [h1, hs], h2⟩

theorem rejection_abandons_call_witness :
    (run Real.sin [] (start .fulfilled : World ℝ)).calls[0]? =
      some ⟨⟨0, .outerRing, 0 + 0.01, 0.9, 0.2⟩, .outer⟩ ∧
    (step Real.sin (run Real.sin [] (start .fulfilled : World ℝ)) (.reject 0)).calls
      = (run Real.sin [] (start .fulfilled : World ℝ)).calls.eraseIdx 0 :=
  ⟨rfl, (rejection_abandons_call Real.sin .fulfilled [] 0
    ⟨⟨0, .outerRing, 0 + 0.01, 0.9, 0.2⟩, .outer⟩ rfl []).2.2.2.2.1⟩

theorem energy_ne_half (time coherence uncertainty : ℝ) (h0 : 0 < time * coherence)
    (h3 : time * coherence ≤ 3) :
    (calculate_quantum_state Real.sin time coherence uncertainty).energy ≠ 0.5 := by
  have hpos : 0 < Real.sin (time * coherence) :=
    Real.sin_pos_of_pos_of_lt_pi h0 (lt_of_le_of_lt h3 Real.pi_gt_three)
  rw [energy_eq]
  intro h
  linarith

/-- C9 fails as stated: when the outer entity's request of the first call is
rejected, no request is ever issued for the middle or the inner entity by
that call, and the middle and inner rings keep `emissiveIntensity = 0.5`
instead of receiving the energy of their states at `time = 0.01`. -/
theorem rejection_counterexample :
    (run Real.sin [.reject 0, .resolve 0, .resolve 0] (start .fulfilled : World ℝ)).issued
      = [⟨0, .outerRing, 0.01, 0.9, 0.2⟩] ∧
    (run Real.sin [.reject 0, .resolve 0, .resolve 0]
        (start .fulfilled : World ℝ)).middleRing.material.emissiveIntensity = 0.5 ∧
    (run Real.sin [.reject 0, .resolve 0, .resolve 0]
        (start .fulfilled : World ℝ)).innerRing.material.emissiveIntensity = 0.5 ∧
    (run Real.sin [.reject 0, .resolve 0, .resolve 0]
        (start .fulfilled : World ℝ)).middleRing.material.emissiveIntensity
      ≠ (calculate_quantum_state Real.sin 0.01 0.7 0.3).energy ∧
    (run Real.sin [.reject 0, .resolve 0, .resolve 0]
        (start .fulfilled : World ℝ)).innerRing.material.emissiveIntensity
      ≠ (calculate_quantum_state Real.sin 0.01 0.5 0.5).energy := by
  have hm : (run Real.sin [.reject 0, .resolve 0, .resolve 0]
      (start .fulfilled : World ℝ)).middleRing.material.emissiveIntensity = 0.5 := by
    simp [run, step, start, animate, updateEntities, resume, abandon, World.initial,
      createRing]
  have hi : (run Real.sin [.reject 0, .resolve 0, .resolve 0]
      (start .fulfilled : World ℝ)).innerRing.material.emissiveIntensity = 0.5 := by
    simp [run, step, start, animate, updateEntities, resume, abandon, World.initial,
      createRing]
  refine ⟨?_, hm, hi, ?_, ?_⟩
  · simp [run, step, start, animate, updateEntities, resume, abandon, World.initial,
      quantumEntity]
  · rw [hm]
    exact (energy_ne_half 0.01 0.7 0.3 (by norm_num) (by norm_num)).symm
  · rw [hi]
    exact (energy_ne_half 0.01 0.5 0.5 (by norm_num) (by norm_num)).symm

/-! ### Resolutions out of order -/

theorem stale_overwrites {α : Type} [Field α] (sin : α → α) (v : World α)
    (rA rB : Request α) (hc : v.calls = [⟨rA, .outer⟩, ⟨rB, .outer⟩]) :
    (run sin [.resolve 1, .resolve 1, .resolve 1, .resolve 0, .resolve 0, .resolve 0]
        v).outerRing
      = writeState (calculate_quantum_state sin rA.time rA.coherence rA.uncertainty) := by
  have h1 : v.calls[1]? = some ⟨rB, .outer⟩ := by rw [hc]; rfl
  have hsplit : [Event.resolve 1, .resolve 1, .resolve 1, .resolve 0, .resolve 0, .resolve 0]
      = [Event.resolve 1, .resolve 1, .resolve 1] ++ [.resolve 0, .resolve 0, .resolve 0] := rfl
  rw [hsplit, run_append, resume_thrice sin 1 v rB h1]
  rw [resume_thrice sin 0 _ rA (by show (v.calls.eraseIdx 1)[0]? = _; rw [hc]; rfl)]

theorem sin_lt_sin_small (a b : ℝ) (ha : 0 ≤ a) (hab : a < b) (hb : b ≤ 3 / 2) :
    Real.sin a < Real.sin b := by
  have hpi := Real.pi_gt_three
  exact Real.sin_lt_sin_of_lt_of_le_pi_div_two (by linarith) (by linarith) hab

/-- C3, as the code has it. No resolution is discarded for being stale: the
code keeps no request time and compares none. A call of `updateEntities` that
receives its third result writes its three results into the rings, whenever
its requests were issued. So when two calls are suspended at their outer
requests and the three requests of the later call resolve before the three of
the earlier call, the outer ring ends with the state returned for the earlier
call's request. -/
theorem last_completed_call_wins {α : Type} [Field α] (sin : α → α) (v : World α)
    (rA rB : Request α) (hc : v.calls = [⟨rA, .outer⟩, ⟨rB, .outer⟩]) :
    (run sin [.resolve 1, .resolve 1, .resolve 1, .resolve 0, .resolve 0, .resolve 0]
        v).outerRing =
      ⟨⟨(calculate_quantum_state sin rA.time rA.coherence rA.uncertainty).x_rotation,
          (calculate_quantum_state sin rA.time rA.coherence rA.uncertainty).y_rotation,
          (calculate_quantum_state sin rA.time rA.coherence rA.uncertainty).z_rotation⟩,
        ⟨(calculate_quantum_state sin rA.time rA.coherence rA.uncertainty).energy⟩⟩ ∧
    ∀ (w : World α) (i : Nat) (r : Request α) (o m : VisualState α),
      w.calls[i]? = some ⟨r, .inner o m⟩ →
      (step sin w (.resolve i)).outerRing
          = ⟨⟨o.x_rotation, o.y_rotation, o.z_rotation⟩, ⟨o.energy⟩⟩ ∧
        (step sin w (.resolve i)).middleRing
          = ⟨⟨m.x_rotation, m.y_rotation, m.z_rotation⟩, ⟨m.energy⟩⟩ ∧
        (step sin w (.resolve i)).innerRing
          = ⟨⟨(calculate_quantum_state sin r.time r.coherence r.uncertainty).x_rotation,
                (calculate_quantum_state sin r.time r.coherence r.uncertainty).y_rotation,
                (calculate_quantum_state sin r.time r.coherence r.uncertainty).z_rotation⟩,
              ⟨(calculate_quantum_state sin r.time r.coherence r.uncertainty).energy⟩⟩ := by
  refine ⟨stale_overwrites sin v rA rB hc, ?_⟩
  intro w i r o m h
  simp only [step]
  rw [resume_inner sin i w r o m h]
  exact ⟨rfl, rfl, rfl⟩

theorem last_completed_call_wins_witness :
    (World.suspended (1.01 : ℝ)
        [⟨⟨0, .outerRing, 1.0, 0.9, 0.2⟩, .outer⟩,
          ⟨⟨1, .outerRing, 1.01, 0.9, 0.2⟩, .outer⟩]).calls
      = [⟨⟨0, .outerRing, 1.0, 0.9, 0.2⟩, .outer⟩, ⟨⟨1, .outerRing, 1.01, 0.9, 0.2⟩, .outer⟩] ∧
    (run Real.sin [.resolve 1, .resolve 1, .resolve 1, .resolve 0, .resolve 0, .resolve 0]
        (World.suspended (1.01 : ℝ)
          [⟨⟨0, .outerRing, 1.0, 0.9, 0.2⟩, .outer⟩,
            ⟨⟨1, .outerRing, 1.01, 0.9, 0.2⟩, .outer⟩])).outerRing =
      ⟨⟨(calculate_quantum_state Real.sin 1.0 0.9 0.2).x_rotation,
          (calculate_quantum_state Real.sin 1.0 0.9 0.2).y_rotation,
          (calculate_quantum_state Real.sin 1.0 0.9 0.2).z_rotation⟩,
        ⟨(calculate_quantum_state Real.sin 1.0 0.9 0.2).energy⟩⟩ ∧
    (World.suspended (1.01 : ℝ)
        [⟨⟨0, .innerRing, 1.0, 0.5, 0.5⟩, .inner ⟨1, 2, 3, 0.25⟩ ⟨4, 5, 6, 0.75⟩⟩]).calls[0]?
      = some ⟨⟨0, .innerRing, 1.0, 0.5, 0.5⟩, .inner ⟨1, 2, 3, 0.25⟩ ⟨4, 5, 6, 0.75⟩⟩ ∧
    (step Real.sin
        (World.suspended (1.01 : ℝ)
          [⟨⟨0, .innerRing, 1.0, 0.5, 0.5⟩, .inner ⟨1, 2, 3, 0.25⟩ ⟨4, 5, 6, 0.75⟩⟩])
        (.resolve 0)).outerRing = ⟨⟨1, 2, 3⟩, ⟨0.25⟩⟩ :=
  ⟨rfl,
    (last_completed_call_wins Real.sin
      (World.suspended (1.01 : ℝ)
        [⟨⟨0, .outerRing, 1.0, 0.9, 0.2⟩, .outer⟩,
          ⟨⟨1, .outerRing, 1.01, 0.9, 0.2⟩, .outer⟩])
      ⟨0, .outerRing, 1.0, 0.9, 0.2⟩ ⟨1, .outerRing, 1.01, 0.9, 0.2⟩ rfl).1,
    rfl,
    ((last_completed_call_wins Real.sin
      (World.suspended (1.01 : ℝ)
        [⟨⟨0, .outerRing, 1.0, 0.9, 0.2⟩, .outer⟩,
          ⟨⟨1, .outerRing, 1.01, 0.9, 0.2⟩, .outer⟩])
      ⟨0, .outerRing, 1.0, 0.9, 0.2⟩ ⟨1, .outerRing, 1.01, 0.9, 0.2⟩ rfl).2
      (World.suspended (1.01 : ℝ)
        [⟨⟨0, .innerRing, 1.0, 0.5, 0.5⟩, .inner ⟨1, 2, 3, 0.25⟩ ⟨4, 5, 6, 0.75⟩⟩]) 0
      ⟨0, .innerRing, 1.0, 0.5, 0.5⟩ ⟨1, 2, 3, 0.25⟩ ⟨4, 5, 6, 0.75⟩ rfl).1⟩

/-- C3 fails as stated: the outer entity's requests are issued at 0.01 by
call 0 and at 0.02 by call 1; the one issued at 0.02 resolves first and call 1
completes; when call 0 then completes, the outer ring holds the state
returned for 0.01, whose energy differs from that of the state for 0.02. -/
theorem stale_resolution_counterexample :
    (run Real.sin
        [.tick, .resolve 1, .resolve 1, .resolve 1, .resolve 0, .resolve 0, .resolve 0]
        (start .fulfilled : World ℝ)).outerRing =
      ⟨⟨(calculate_quantum_state Real.sin 0.01 0.9 0.2).x_rotation,
          (calculate_quantum_state Real.sin 0.01 0.9 0.2).y_rotation,
          (calculate_quantum_state Real.sin 0.01 0.9 0.2).z_rotation⟩,
        ⟨(calculate_quantum_state Real.sin 0.01 0.9 0.2).energy⟩⟩ ∧
    (run Real.sin
        [.tick, .resolve 1, .resolve 1, .resolve 1, .resolve 0, .resolve 0, .resolve 0]
        (start .fulfilled : World ℝ)).outerRing.material.emissiveIntensity
      ≠ (calculate_quantum_state Real.sin 0.02 0.9 0.2).energy ∧
    (run Real.sin [.tick] (start .fulfilled : World ℝ)).calls =
      [⟨⟨0, .outerRing, 0.01, 0.9, 0.2⟩, .outer⟩, ⟨⟨1, .outerRing, 0.02, 0.9, 0.2⟩, .outer⟩] := by
  have hv : (step Real.sin (start .fulfilled : World ℝ) .tick).calls =
      [⟨⟨0, .outerRing, 0.01, 0.9, 0.2⟩, .outer⟩,
        ⟨⟨1, .outerRing, 0.02, 0.9, 0.2⟩, .outer⟩] := by
    simp [step, start, animate, updateEntities, World.initial, quantumEntity]
    norm_num
  have ho := stale_overwrites Real.sin _ _ _ hv
  rw [run_cons]
  refine ⟨ho, ?_, hv⟩
  rw [ho]
  show (calculate_quantum_state Real.sin 0.01 0.9 0.2).energy
    ≠ (calculate_quantum_state Real.sin 0.02 0.9 0.2).energy
  rw [energy_eq, energy_eq]
  have := sin_lt_sin_small (0.01 * 0.9) (0.02 * 0.9) (by norm_num) (by norm_num) (by norm_num)
  intro h
  linarith

end FrameLoop

end Ophanim
